import Mathlib

/-!
Shallow embedding of the SMC supply/demand zone-detection engine
(`zone_detector.py`).  Prices are modelled as rationals; the input series is a
`List Bar` in ascending time order; numpy's NaN entries of the ATR array are
modelled with `Option`.  Every definition follows the corresponding Python
function; `find_zones` is the engine's entry point.
-/

namespace SMC

/-- One OHLCV bar of the input series (`df` rows).  The `open` price and the
volume are carried by the source data model but never read by the algorithm;
the timestamp is abstracted to a `Nat`. -/
structure Bar where
  dt     : Nat
  opn    : ℚ
  high   : ℚ
  low    : ℚ
  close  : ℚ
  volume : ℚ
deriving Repr, DecidableEq, Inhabited

/-- Read of `high[i]` (out-of-range reads never occur on the index sets the engine
uses; they default to the zero bar). -/
def hiD (df : List Bar) (i : Nat) : ℚ := (df.getD i default).high

/-- Read of `low[i]`. -/
def loD (df : List Bar) (i : Nat) : ℚ := (df.getD i default).low

/-- Read of `close[i]`. -/
def clD (df : List Bar) (i : Nat) : ℚ := (df.getD i default).close

/-- Read of `df["datetime"].iloc[i]`. -/
def dtD (df : List Bar) (i : Nat) : Nat := (df.getD i default).dt

/-- The true-range array `tr` of `_compute_atr`:
`tr[0] = high[0] - low[0]`, and for `i ≥ 1`
`tr[i] = max(high[i]-low[i], |high[i]-close[i-1]|, |low[i]-close[i-1]|)`. -/
def trueRange (df : List Bar) : Nat → ℚ
  | 0 => hiD df 0 - loD df 0
  | i + 1 =>
    max (hiD df (i + 1) - loD df (i + 1))
      (max |hiD df (i + 1) - clD df i| |loD df (i + 1) - clD df i|)

/-- Sum of the first `k` true ranges (`tr[:k].sum()`). -/
def trSum (df : List Bar) : Nat → ℚ
  | 0 => 0
  | k + 1 => trSum df k + trueRange df k

/-- The recurrence of `_compute_atr` on defined entries: index `period - 1`
is seeded with the mean of the first `period` true ranges, and later indices
follow Wilder smoothing with `alpha = 1/period`. -/
def atrVal (df : List Bar) (period : Nat) : Nat → ℚ
  | 0 => trSum df period / period
  | i + 1 =>
    if i + 2 ≤ period then trSum df period / period
    else atrVal df period i * (1 - 1 / (period : ℚ)) + trueRange df (i + 1) * (1 / (period : ℚ))

/-- Entry `i` of the `_compute_atr` array (for `period ≥ 1`): `none` models the NaN
entries (`atr[:period] = nan`, re-seeded at `period - 1` only when
`n >= period`) and out-of-range reads. -/
def atr (df : List Bar) (period i : Nat) : Option ℚ :=
  if period ≤ df.length ∧ period - 1 ≤ i ∧ i < df.length
  then some (atrVal df period i) else none

/-- Maximum of `high[a .. a+k]` (inclusive), the `.max()` of a nonempty slice. -/
def maxHigh (df : List Bar) (a : Nat) : Nat → ℚ
  | 0 => hiD df a
  | k + 1 => max (maxHigh df a k) (hiD df (a + (k + 1)))

/-- Minimum of `low[a .. a+k]` (inclusive). -/
def minLow (df : List Bar) (a : Nat) : Nat → ℚ
  | 0 => loD df a
  | k + 1 => min (minLow df a k) (loD df (a + (k + 1)))

/-- Embeds `_compute_swings`: bar `i` is a swing high when it has a full window on
both sides and its high equals the window maximum over `[i-n, i+n]`. -/
def swingHigh (df : List Bar) (n i : Nat) : Bool :=
  decide (n ≤ i) && decide (i + n < df.length) &&
    decide (hiD df i = maxHigh df (i - n) (2 * n))

/-- Embeds `_compute_swings`, swing-low half. -/
def swingLow (df : List Bar) (n i : Nat) : Bool :=
  decide (n ≤ i) && decide (i + n < df.length) &&
    decide (loD df i = minLow df (i - n) (2 * n))

/-- The running state of `_compute_bos` after the update step of iteration
`i`: the most recently confirmed swing-high and swing-low values. -/
def lastSwings (df : List Bar) (n : Nat) : Nat → Option ℚ × Option ℚ
  | 0 =>
    (if swingHigh df n 0 then some (hiD df 0) else none,
     if swingLow df n 0 then some (loD df 0) else none)
  | i + 1 =>
    let prev := lastSwings df n i
    (if swingHigh df n (i + 1) then some (hiD df (i + 1)) else prev.1,
     if swingLow df n (i + 1) then some (loD df (i + 1)) else prev.2)

/-- Embeds `_compute_bos`, bullish flag: the close strictly exceeds the most recent
confirmed swing high (false while no swing high is confirmed). -/
def bullishBos (df : List Bar) (n i : Nat) : Bool :=
  match (lastSwings df n i).1 with
  | none => false
  | some sh => decide (clD df i > sh)

/-- Embeds `_compute_bos`, bearish flag. -/
def bearishBos (df : List Bar) (n i : Nat) : Bool :=
  match (lastSwings df n i).2 with
  | none => false
  | some sl => decide (clD df i < sl)

/-- Embeds `_compute_fvg`, bullish marker at interior bar `i`: `high[i-1] < low[i+1]`. -/
def bullishFvg (df : List Bar) (i : Nat) : Bool :=
  decide (1 ≤ i) && decide (i + 1 < df.length) && decide (hiD df (i - 1) < loD df (i + 1))

/-- Embeds `_compute_fvg`, bearish marker at interior bar `i`: `low[i-1] > high[i+1]`. -/
def bearishFvg (df : List Bar) (i : Nat) : Bool :=
  decide (1 ≤ i) && decide (i + 1 < df.length) && decide (loD df (i - 1) > hiD df (i + 1))

/-- Embeds `_is_fresh`: true when no bar strictly after `base_end_idx` has its
low/high range intersecting the zone bounds. -/
def isFresh (df : List Bar) (base_end_idx : Nat) (zone_high zone_low : ℚ) : Bool :=
  (df.drop (base_end_idx + 1)).all fun b =>
    !decide (b.low < zone_high ∧ b.high > zone_low)

/-- The per-criterion breakdown built by `_score_zone` (`details` dict). -/
structure ScoreDetails where
  impulse    : ℚ
  tightness  : ℚ
  freshness  : ℚ
  fvg        : ℚ
  bos        : ℚ
  clean_base : ℚ
deriving Repr, DecidableEq, Inhabited

/-- Embeds `_score_zone`: six criteria and their unweighted sum. -/
def score_zone (impulse_atr_ratio base_range atr_val : ℚ)
    (fresh fvg_present bos_aligned : Bool) (base_len : Nat) : ℚ × ScoreDetails :=
  let impulse : ℚ :=
    if impulse_atr_ratio > 3 then 1 else if impulse_atr_ratio > (1.8 : ℚ) then 0.5 else 0
  let base_pct : ℚ := if atr_val > 0 then base_range / atr_val else 1
  let tightness : ℚ :=
    if base_pct < (0.20 : ℚ) then 1 else if base_pct < (0.40 : ℚ) then 0.5 else 0
  let freshness : ℚ := if fresh then 1 else 0
  let fvgScore : ℚ := if fvg_present then 1 else 0
  let bosScore : ℚ := if bos_aligned then 1 else 0
  let clean_base : ℚ := if base_len ≤ 2 then 1 else 0
  (impulse + tightness + freshness + fvgScore + bosScore + clean_base,
   ⟨impulse, tightness, freshness, fvgScore, bosScore, clean_base⟩)

/-- The output record (`ZoneDict`). -/
structure ZoneDict where
  type           : String
  zone_high      : ℚ
  zone_low       : ℚ
  zone_mid       : ℚ
  score          : ℚ
  probability    : String
  base_start_idx : Nat
  base_end_idx   : Nat
  mitigated      : Bool
  fvg_present    : Bool
  impulse_ratio  : ℚ
  score_details  : ScoreDetails
  datetime_start : Nat
  datetime_end   : Nat
deriving Repr, DecidableEq, Inhabited

/-- The tunables of `config.py` consumed by `find_zones` (spec §9 re-expresses
the process-wide settings as an explicit record). -/
structure Config where
  MIN_SCORE          : ℚ
  BASE_MAX_CANDLES   : Nat
  BASE_RANGE_ATR_PCT : ℚ
  IMPULSE_ATR_MULT   : ℚ
  ATR_PERIOD         : Nat
  LOOKBACK_SWINGS    : Nat
deriving Repr, DecidableEq

/-- Test `any(flags[a:b])` for a per-bar boolean signal. -/
def anyInWindow (f : Nat → Bool) (a b : Nat) : Bool :=
  (List.range (b - a)).any fun k => f (a + k)

/-- The `ZoneDict` literal built inside `find_zones` for one qualifying
direction of one base (`zone_type` is `"demand"` or `"supply"`,
`impulse_move` the matching directional move). -/
def mkZone (df : List Bar) (cfg : Config) (zone_type : String)
    (i base_len : Nat) (atr_i base_high base_low base_range impulse_move : ℚ) : ZoneDict :=
  let base_start := i - base_len + 1
  let base_end := i
  let look_end := min (i + 4) df.length
  let impulse_ratio := impulse_move / atr_i
  let fvg_present :=
    if zone_type = "demand" then anyInWindow (bullishFvg df) i look_end
    else anyInWindow (bearishFvg df) i look_end
  let bos_aligned :=
    if zone_type = "demand" then anyInWindow (bullishBos df cfg.LOOKBACK_SWINGS) i look_end
    else anyInWindow (bearishBos df cfg.LOOKBACK_SWINGS) i look_end
  let fresh := isFresh df base_end base_high base_low
  let sd := score_zone impulse_ratio base_range atr_i fresh fvg_present bos_aligned base_len
  { type := zone_type
    zone_high := base_high
    zone_low := base_low
    zone_mid := (base_high + base_low) / 2
    score := sd.1
    probability := if sd.1 ≥ 5 then "High" else "Medium-High"
    base_start_idx := base_start
    base_end_idx := base_end
    mitigated := !fresh
    fvg_present := fvg_present
    impulse_ratio := impulse_ratio
    score_details := sd.2
    datetime_start := dtD df base_start
    datetime_end := dtD df base_end }

/-- The per-direction tail of the inner loop body: a direction that does not
qualify contributes nothing, a qualifying one contributes its zone unless the
zone's score is below `MIN_SCORE`. -/
def gatedZone (min_score : ℚ) (cond : Bool) (z : ZoneDict) : List ZoneDict :=
  if cond then (if z.score < min_score then [] else [z]) else []

/-- The body of the inner `for base_len in range(1, bmc + 1)` loop of
`find_zones` at bar `i` and base length `base_len`, given the (defined,
nonzero) ATR value `atr_i`: the zones appended for this base, in source
order (demand before supply), already filtered by `MIN_SCORE`. -/
def candidatesForBase (df : List Bar) (cfg : Config) (i base_len : Nat) (atr_i : ℚ) :
    List ZoneDict :=
  let base_start := i - base_len + 1
  let base_high := maxHigh df base_start (base_len - 1)
  let base_low := minLow df base_start (base_len - 1)
  let base_range := base_high - base_low
  if base_range > cfg.BASE_RANGE_ATR_PCT * atr_i then []
  else
    let look_end := min (i + 4) df.length
    let up_move := maxHigh df i (look_end - i - 1) - base_high
    let down_move := base_low - minLow df i (look_end - i - 1)
    gatedZone cfg.MIN_SCORE (decide (up_move ≥ cfg.IMPULSE_ATR_MULT * atr_i))
        (mkZone df cfg "demand" i base_len atr_i base_high base_low base_range up_move)
      ++ gatedZone cfg.MIN_SCORE (decide (down_move ≥ cfg.IMPULSE_ATR_MULT * atr_i))
        (mkZone df cfg "supply" i base_len atr_i base_high base_low base_range down_move)

/-- One iteration of the outer `for i in range(bmc, n - bmc - 1)` loop:
skipped when the ATR at `i` is NaN or zero, otherwise all base lengths from
1 to `BASE_MAX_CANDLES` are tried. -/
def candidatesAt (df : List Bar) (cfg : Config) (i : Nat) : List ZoneDict :=
  match atr df cfg.ATR_PERIOD i with
  | none => []
  | some a =>
    if a = 0 then []
    else (List.range cfg.BASE_MAX_CANDLES).flatMap fun l => candidatesForBase df cfg i (l + 1) a

/-- The `raw_zones` list of `find_zones`: the outer loop runs over
`range(bmc, n - bmc - 1)` (upper bound exclusive). -/
def rawZones (df : List Bar) (cfg : Config) : List ZoneDict :=
  (List.range (df.length - cfg.BASE_MAX_CANDLES - 1 - cfg.BASE_MAX_CANDLES)).flatMap
    fun k => candidatesAt df cfg (cfg.BASE_MAX_CANDLES + k)

/-- Stable descending insertion by score: a zone is placed before the first
kept zone whose score is not larger, which reproduces Python's stable
`sort(key=score, reverse=True)`. -/
def insertZ (z : ZoneDict) : List ZoneDict → List ZoneDict
  | [] => [z]
  | k :: rest => if k.score ≤ z.score then z :: k :: rest else k :: insertZ z rest

/-- Embeds the stable `raw_zones.sort(key=lambda z: z["score"], reverse=True)`. -/
def sortZones : List ZoneDict → List ZoneDict
  | [] => []
  | z :: rest => insertZ z (sortZones rest)

/-- The overlap test of the de-duplication loop: some already-kept zone of
the same type overlaps `z` in the open-interval sense. -/
def overlapsKept (z : ZoneDict) (kept : List ZoneDict) : Bool :=
  kept.any fun k =>
    decide (k.type = z.type) && decide (z.zone_low < k.zone_high) &&
      decide (z.zone_high > k.zone_low)

/-- The greedy de-duplication walk of `find_zones` (`kept` accumulates in
acceptance order). -/
def resolveAux (kept : List ZoneDict) : List ZoneDict → List ZoneDict
  | [] => kept
  | z :: rest =>
    if overlapsKept z kept then resolveAux kept rest
    else resolveAux (kept ++ [z]) rest

/-- Embeds `find_zones`: signal passes, candidate generation, score filter, stable
sort by descending score, greedy same-type overlap resolution. -/
def find_zones (df : List Bar) (cfg : Config) : List ZoneDict :=
  resolveAux [] (sortZones (rawZones df cfg))

/-- Embeds `_compute_atr` including its fault behaviour: the assignment
`tr[0] = high[0] - low[0]` reads index 0 unconditionally, which on an empty
series is an out-of-bounds read (numpy `IndexError`).  On a nonempty series
the pass is total and returns the defined-or-NaN array. -/
def computeAtrExc (df : List Bar) (period : Nat) : Except String (List (Option ℚ)) :=
  match df with
  | [] => Except.error "IndexError"
  | _ :: _ => Except.ok ((List.range df.length).map fun i => atr df period i)

/-! ### Concrete series used to settle boundary behaviour

A small configuration (one-bar bases, one-bar ATR, zero swing half-window,
zero score threshold) keeps the concrete runs evaluable by the kernel. -/

/-- A valid configuration: `p = 1 ≥ 1`, swing half-window `0 ≥ 0`, one-candle
bases, permissive thresholds. -/
def exCfg : Config := ⟨0, 1, 2, 1, 1, 0⟩

/-- Four well-formed bars: a flat one-bar base at price 10 (bar 1) followed by
a strong upward impulse, so `find_zones` emits a demand zone whose price
bounds are equal. -/
def exDf : List Bar :=
  [⟨0, 0, 10, 9, 9, 0⟩, ⟨1, 0, 10, 10, 10, 0⟩, ⟨2, 0, 20, 15, 20, 0⟩, ⟨3, 0, 21, 16, 20, 0⟩]

/-- The zone `find_zones` returns on `exDf` (its head). -/
def exZone : ZoneDict := (find_zones exDf exCfg).headD default

/-- Four bars on which a qualifying one-bar base ends at index
`length - BASE_MAX_CANDLES - 1 = 2`: the per-index generator produces a
candidate there, but the outer loop stops at index 1. -/
def c3df : List Bar :=
  [⟨0, 0, 10, 9, 9, 0⟩, ⟨1, 0, 10, 10, 19/2, 0⟩, ⟨2, 0, 10, 10, 10, 0⟩, ⟨3, 0, 30, 10, 25, 0⟩]

/-- The zone `rawZones` produces on `c3df` (its head). -/
def c3zone : ZoneDict := (rawZones c3df exCfg).headD default

/-- Four bars whose one-bar base at index 1 qualifies as demand and as supply
simultaneously, so `find_zones` returns two opposite-direction zones with
identical (overlapping) price bounds. -/
def c4df : List Bar :=
  [⟨0, 0, 10, 9, 9, 0⟩, ⟨1, 0, 21/2, 19/2, 10, 0⟩, ⟨2, 0, 25/2, 15/2, 10, 0⟩, ⟨3, 0, 12, 8, 10, 0⟩]

/-- Two bars for evaluating the volatility pass at its seed index. -/
def wdf6 : List Bar := [⟨0, 0, 3, 1, 2, 0⟩, ⟨1, 0, 5, 2, 4, 0⟩]

/-- Two bars sharing their tail with `wdf8b`. -/
def wdf8a : List Bar := [⟨0, 0, 5, 4, 4, 0⟩, ⟨1, 0, 7, 6, 6, 0⟩]

/-- Two bars sharing their tail with `wdf8a` but differing at index 0. -/
def wdf8b : List Bar := [⟨9, 9, 50, 40, 40, 9⟩, ⟨1, 0, 7, 6, 6, 0⟩]

/-! ### Membership structure of the pipeline -/

theorem mem_insertZ {z w : ZoneDict} {l : List ZoneDict} :
    w ∈ insertZ z l ↔ w = z ∨ w ∈ l := by
  induction l with
  | nil => simp [insertZ]
  | cons k rest ih =>
    simp only [insertZ]
    split
    · simp [List.mem_cons]
    · simp only [List.mem_cons, ih]
      tauto

theorem mem_sortZones {w : ZoneDict} {l : List ZoneDict} :
    w ∈ sortZones l ↔ w ∈ l := by
  induction l with
  | nil => simp [sortZones]
  | cons z rest ih => simp [sortZones, mem_insertZ, ih]

theorem mem_resolveAux {w : ZoneDict} :
    ∀ {l kept : List ZoneDict}, w ∈ resolveAux kept l → w ∈ kept ∨ w ∈ l := by
  intro l
  induction l with
  | nil => intro kept h; exact Or.inl h
  | cons z rest ih =>
    intro kept h
    simp only [resolveAux] at h
    split at h
    · rcases ih h with h' | h'
      · exact Or.inl h'
      · exact Or.inr (List.mem_cons_of_mem _ h')
    · rcases ih h with h' | h'
      · rcases List.mem_append.1 h' with h'' | h''
        · exact Or.inl h''
        · simp only [List.mem_singleton] at h''
          exact Or.inr (h'' ▸ List.mem_cons_self _ _)
      · exact Or.inr (List.mem_cons_of_mem _ h')

theorem mem_find_zones {df : List Bar} {cfg : Config} {z : ZoneDict}
    (h : z ∈ find_zones df cfg) : z ∈ rawZones df cfg := by
  unfold find_zones at h
  rcases mem_resolveAux h with h' | h'
  · simp at h'
  · exact mem_sortZones.1 h'

/-- The amended iteration range of the Candidate Generator: exactly the
indices `i` with `BASE_MAX_CANDLES ≤ i` and `i + BASE_MAX_CANDLES + 2 ≤
length` (i.e. `i ≤ length - BASE_MAX_CANDLES - 2`) are evaluated. -/
theorem mem_rawZones {df : List Bar} {cfg : Config} {z : ZoneDict} :
    z ∈ rawZones df cfg ↔
      ∃ i, cfg.BASE_MAX_CANDLES ≤ i ∧ i + cfg.BASE_MAX_CANDLES + 2 ≤ df.length ∧
        z ∈ candidatesAt df cfg i := by
  unfold rawZones
  rw [List.mem_flatMap]
  constructor
  · rintro ⟨k, hk, hz⟩
    rw [List.mem_range] at hk
    exact ⟨cfg.BASE_MAX_CANDLES + k, Nat.le_add_right _ _, by omega, hz⟩
  · rintro ⟨i, h1, h2, hz⟩
    refine ⟨i - cfg.BASE_MAX_CANDLES, ?_, ?_⟩
    · rw [List.mem_range]; omega
    · have hi : cfg.BASE_MAX_CANDLES + (i - cfg.BASE_MAX_CANDLES) = i := by omega
      rw [hi]; exact hz

theorem mem_candidatesAt {df : List Bar} {cfg : Config} {i : Nat} {z : ZoneDict}
    (h : z ∈ candidatesAt df cfg i) :
    ∃ a L, atr df cfg.ATR_PERIOD i = some a ∧ a ≠ 0 ∧ 1 ≤ L ∧ L ≤ cfg.BASE_MAX_CANDLES ∧
      z ∈ candidatesForBase df cfg i L a := by
  unfold candidatesAt at h
  rcases hatr : atr df cfg.ATR_PERIOD i with _ | a
  · rw [hatr] at h; simp at h
  · rw [hatr] at h
    split at h
    case h_1 => simp at h
    case h_2 b heq =>
      obtain rfl : b = a := by injection heq with h'; exact h'.symm
      split at h
      · simp at h
      · rw [List.mem_flatMap] at h
        obtain ⟨l, hl, hz⟩ := h
        rw [List.mem_range] at hl
        exact ⟨b, l + 1, rfl, by assumption, by omega, by omega, hz⟩

/-- Every zone emitted for base `(i, base_len)` is one of the two `mkZone`
records of that base, and its derived fields satisfy the construction
invariants. -/
theorem mem_candidatesForBase {df : List Bar} {cfg : Config} {i L : Nat} {a : ℚ}
    {z : ZoneDict} (h : z ∈ candidatesForBase df cfg i L a) :
    z.base_end_idx = i ∧ z.base_start_idx = i - L + 1 ∧
      z.zone_high = maxHigh df (i - L + 1) (L - 1) ∧
      z.zone_low = minLow df (i - L + 1) (L - 1) ∧
      z.zone_mid = (z.zone_high + z.zone_low) / 2 ∧
      z.mitigated = !(isFresh df i z.zone_high z.zone_low) ∧
      (z.mitigated = true ↔ z.score_details.freshness = 0) := by
  simp only [candidatesForBase] at h
  split at h
  · simp at h
  · rw [List.mem_append] at h
    have hcase : ∀ (ty : String) (im : ℚ) (c : Bool),
        z ∈ gatedZone cfg.MIN_SCORE c
            (mkZone df cfg ty i L a (maxHigh df (i - L + 1) (L - 1))
              (minLow df (i - L + 1) (L - 1))
              (maxHigh df (i - L + 1) (L - 1) - minLow df (i - L + 1) (L - 1)) im) →
        z.base_end_idx = i ∧ z.base_start_idx = i - L + 1 ∧
          z.zone_high = maxHigh df (i - L + 1) (L - 1) ∧
          z.zone_low = minLow df (i - L + 1) (L - 1) ∧
          z.zone_mid = (z.zone_high + z.zone_low) / 2 ∧
          z.mitigated = !(isFresh df i z.zone_high z.zone_low) ∧
          (z.mitigated = true ↔ z.score_details.freshness = 0) := by
      intro ty im c hz
      unfold gatedZone at hz
      split at hz
      · split at hz
        · simp at hz
        · rw [List.mem_singleton] at hz
          subst hz
          refine ⟨rfl, rfl, rfl, rfl, rfl, rfl, ?_⟩
          simp only [mkZone, score_zone]
          rcases hf : isFresh df i (maxHigh df (i - L + 1) (L - 1))
              (minLow df (i - L + 1) (L - 1)) with _ | _ <;>
            simp [hf]
      · simp at hz
    rcases h with h | h
    · exact hcase "demand" _ _ h
    · exact hcase "supply" _ _ h

/-! ### Price-bound invariants -/

theorem loD_le_hiD {df : List Bar} (hwf : ∀ b ∈ df, b.low ≤ b.high) (j : Nat) :
    loD df j ≤ hiD df j := by
  unfold loD hiD
  rcases lt_or_le j df.length with hj | hj
  · rw [List.getD_eq_getElem df default hj]
    exact hwf _ (List.getElem_mem hj)
  · rw [List.getD_eq_default df default hj]
    exact le_refl _

theorem minLow_le_maxHigh {df : List Bar} (hwf : ∀ b ∈ df, b.low ≤ b.high) (a k : Nat) :
    minLow df a k ≤ maxHigh df a k := by
  induction k with
  | zero => exact loD_le_hiD hwf a
  | succ k ih =>
    simp only [minLow, maxHigh]
    exact le_trans (min_le_left _ _) (le_trans ih (le_max_left _ _))

/-- C1 counterexample: on the well-formed series `exDf` (a flat one-bar base
followed by an upward impulse) the engine returns a zone whose price bounds
are equal, so strict `zone_high > zone_low` is not enforced. -/
theorem find_zones_strict_bounds_refuted :
    ¬ (∀ z ∈ find_zones exDf exCfg, z.zone_low < z.zone_high) := by
  with_unfolding_all decide

/-- C1 (amended): for every series whose bars satisfy `low ≤ high` and every
configuration, every zone returned by `find_zones` satisfies
`zone_low ≤ zone_high`; equality is possible (flat bases are not excluded). -/
theorem find_zones_zone_low_le_zone_high (df : List Bar) (cfg : Config)
    (hwf : ∀ b ∈ df, b.low ≤ b.high) :
    ∀ z ∈ find_zones df cfg, z.zone_low ≤ z.zone_high := by
  intro z hz
  obtain ⟨i, _, _, hc⟩ := mem_rawZones.1 (mem_find_zones hz)
  obtain ⟨a, L, _, _, _, _, hcb⟩ := mem_candidatesAt hc
  obtain ⟨_, _, hh, hl, _⟩ := mem_candidatesForBase hcb
  rw [hh, hl]
  exact minLow_le_maxHigh hwf _ _

theorem find_zones_zone_low_le_zone_high_witness :
    exZone.zone_low ≤ exZone.zone_high :=
  find_zones_zone_low_le_zone_high exDf exCfg (by with_unfolding_all decide) exZone
    (by with_unfolding_all decide)

/-- C3 counterexample: on `c3df` a qualifying base ends at index
`length − BASE_MAX_CANDLES − 1 = 2` (the per-index generator yields a
candidate there), yet no generated zone has that base end index: the outer
loop's upper end is exclusive, not inclusive. -/
theorem generator_upper_index_refuted :
    candidatesAt c3df exCfg (c3df.length - exCfg.BASE_MAX_CANDLES - 1) ≠ [] ∧
    ∀ z ∈ rawZones c3df exCfg,
      z.base_end_idx ≠ c3df.length - exCfg.BASE_MAX_CANDLES - 1 := by
  refine ⟨?_, ?_⟩ <;> with_unfolding_all decide

/-- C3 (amended): the Candidate Generator evaluates candidate bases exactly
at the indices `i` with `BASE_MAX_CANDLES ≤ i ≤ length − BASE_MAX_CANDLES − 2`
(equivalently `i + BASE_MAX_CANDLES + 2 ≤ length`); the index
`length − BASE_MAX_CANDLES − 1` is never evaluated.  On `c3df` a qualifying
base ending at the last evaluated index `length − BASE_MAX_CANDLES − 2 = 1`
produces a candidate. -/
theorem rawZones_iteration_range :
    (∀ (df : List Bar) (cfg : Config) (z : ZoneDict),
      z ∈ rawZones df cfg ↔
        ∃ i, cfg.BASE_MAX_CANDLES ≤ i ∧ i + cfg.BASE_MAX_CANDLES + 2 ≤ df.length ∧
          z ∈ candidatesAt df cfg i) ∧
    c3zone ∈ rawZones c3df exCfg ∧
    c3zone.base_end_idx = c3df.length - exCfg.BASE_MAX_CANDLES - 2 := by
  refine ⟨fun df cfg z => mem_rawZones, ?_, ?_⟩ <;> with_unfolding_all decide

theorem rawZones_iteration_range_witness :
    ∃ i, exCfg.BASE_MAX_CANDLES ≤ i ∧ i + exCfg.BASE_MAX_CANDLES + 2 ≤ c3df.length ∧
      c3zone ∈ candidatesAt c3df exCfg i :=
  (rawZones_iteration_range.1 c3df exCfg c3zone).mp (by with_unfolding_all decide)

/-- C9: every zone returned by `find_zones` carries `zone_mid` equal to the
arithmetic mean of its price bounds. -/
theorem find_zones_zone_mid_eq (df : List Bar) (cfg : Config) :
    ∀ z ∈ find_zones df cfg, z.zone_mid = (z.zone_high + z.zone_low) / 2 := by
  intro z hz
  obtain ⟨i, _, _, hc⟩ := mem_rawZones.1 (mem_find_zones hz)
  obtain ⟨a, L, _, _, _, _, hcb⟩ := mem_candidatesAt hc
  exact (mem_candidatesForBase hcb).2.2.2.2.1

theorem find_zones_zone_mid_eq_witness :
    exZone.zone_mid = (exZone.zone_high + exZone.zone_low) / 2 :=
  find_zones_zone_mid_eq exDf exCfg exZone (by with_unfolding_all decide)

/-- C10: in every returned zone, `mitigated` is the negation of the
freshness flag computed over the zone's own bounds and base end, and
`mitigated` is true exactly when the `freshness` entry of the score breakdown
is `0.0`. -/
theorem find_zones_mitigated_iff (df : List Bar) (cfg : Config) :
    ∀ z ∈ find_zones df cfg,
      z.mitigated = !(isFresh df z.base_end_idx z.zone_high z.zone_low) ∧
      (z.mitigated = true ↔ z.score_details.freshness = 0) := by
  intro z hz
  obtain ⟨i, _, _, hc⟩ := mem_rawZones.1 (mem_find_zones hz)
  obtain ⟨a, L, _, _, _, _, hcb⟩ := mem_candidatesAt hc
  obtain ⟨hend, _, _, _, _, hmit, hiff⟩ := mem_candidatesForBase hcb
  refine ⟨?_, hiff⟩
  rw [hend]
  exact hmit

theorem find_zones_mitigated_iff_witness :
    exZone.mitigated = true ↔ exZone.score_details.freshness = 0 :=
  (find_zones_mitigated_iff exDf exCfg exZone (by with_unfolding_all decide)).2

/-! ### Overlap resolution -/

theorem overlapsKept_eq_false {z : ZoneDict} {kept : List ZoneDict}
    (h : overlapsKept z kept = false) :
    ∀ k ∈ kept, k.type = z.type →
      ¬(z.zone_low < k.zone_high ∧ z.zone_high > k.zone_low) := by
  intro k hk hty hov
  unfold overlapsKept at h
  rw [List.any_eq_false] at h
  exact h k hk (by simp [hty, hov.1, hov.2])

theorem resolveAux_pairwise :
    ∀ (l kept : List ZoneDict),
      kept.Pairwise (fun a b => a.type = b.type →
        ¬(b.zone_low < a.zone_high ∧ b.zone_high > a.zone_low)) →
      (resolveAux kept l).Pairwise (fun a b => a.type = b.type →
        ¬(b.zone_low < a.zone_high ∧ b.zone_high > a.zone_low)) := by
  intro l
  induction l with
  | nil => intro kept h; exact h
  | cons z rest ih =>
    intro kept hk
    simp only [resolveAux]
    cases ho : overlapsKept z kept with
    | true =>
      rw [if_pos rfl]
      exact ih kept hk
    | false =>
      rw [if_neg Bool.false_ne_true]
      apply ih
      rw [List.pairwise_append]
      refine ⟨hk, List.pairwise_singleton _ _, ?_⟩
      intro a ha b hb
      rw [List.mem_singleton] at hb
      subst hb
      intro hty
      exact overlapsKept_eq_false ho a ha hty

/-- C4: in every list returned by `find_zones`, a later zone of the same
direction never open-interval-overlaps an earlier (kept) one, while on
`c4df` the output holds a demand zone and a supply zone with overlapping
bounds: opposite directions do not suppress each other. -/
theorem find_zones_same_type_disjoint :
    (∀ (df : List Bar) (cfg : Config),
      (find_zones df cfg).Pairwise (fun a b => a.type = b.type →
        ¬(b.zone_low < a.zone_high ∧ b.zone_high > a.zone_low))) ∧
    (∃ z1 ∈ find_zones c4df exCfg, ∃ z2 ∈ find_zones c4df exCfg,
      z1.type = "demand" ∧ z2.type = "supply" ∧
      z1.zone_low < z2.zone_high ∧ z1.zone_high > z2.zone_low) := by
  constructor
  · intro df cfg
    exact resolveAux_pairwise _ [] List.Pairwise.nil
  · with_unfolding_all decide

theorem find_zones_same_type_disjoint_witness :
    (find_zones c4df exCfg).Pairwise (fun a b => a.type = b.type →
      ¬(b.zone_low < a.zone_high ∧ b.zone_high > a.zone_low)) :=
  find_zones_same_type_disjoint.1 c4df exCfg

/-! ### The stable sort and the score filter -/

/-- Descending-score order (the sort key of `find_zones`). -/
def scoreDesc (a b : ZoneDict) : Prop := b.score ≤ a.score

theorem insertZ_eq_cons {z : ZoneDict} {l : List ZoneDict}
    (h : ∀ w ∈ l, w.score ≤ z.score) : insertZ z l = z :: l := by
  cases l with
  | nil => rfl
  | cons k rest =>
    simp only [insertZ]
    rw [if_pos (h k (List.mem_cons_self _ _))]

theorem sorted_insertZ {z : ZoneDict} {l : List ZoneDict}
    (hl : l.Pairwise scoreDesc) : (insertZ z l).Pairwise scoreDesc := by
  induction l with
  | nil => exact List.pairwise_singleton _ _
  | cons k rest ih =>
    rw [List.pairwise_cons] at hl
    obtain ⟨hk, hrest⟩ := hl
    simp only [insertZ]
    by_cases hc : k.score ≤ z.score
    · rw [if_pos hc, List.pairwise_cons]
      constructor
      · intro w hw
        rcases List.mem_cons.1 hw with rfl | hw'
        · exact hc
        · exact le_trans (hk w hw') hc
      · rw [List.pairwise_cons]
        exact ⟨hk, hrest⟩
    · rw [if_neg hc, List.pairwise_cons]
      constructor
      · intro w hw
        rcases mem_insertZ.1 hw with rfl | hw'
        · exact le_of_not_le hc
        · exact hk w hw'
      · exact ih hrest

theorem sorted_sortZones (l : List ZoneDict) : (sortZones l).Pairwise scoreDesc := by
  induction l with
  | nil => exact List.Pairwise.nil
  | cons z rest ih => exact sorted_insertZ ih

theorem filter_insertZ {p : ZoneDict → Bool} {z : ZoneDict} {l : List ZoneDict}
    (hl : l.Pairwise scoreDesc) :
    (insertZ z l).filter p = if p z then insertZ z (l.filter p) else l.filter p := by
  induction l with
  | nil => cases hpz : p z <;> simp [insertZ, List.filter, hpz]
  | cons k rest ih =>
    rw [List.pairwise_cons] at hl
    obtain ⟨hk, hrest⟩ := hl
    simp only [insertZ]
    by_cases hc : k.score ≤ z.score
    · rw [if_pos hc]
      cases hpz : p z with
      | true =>
        rw [List.filter_cons_of_pos hpz, if_pos rfl]
        refine (insertZ_eq_cons ?_).symm
        intro w hw
        rcases List.mem_cons.1 (List.mem_of_mem_filter hw) with rfl | hw'
        · exact hc
        · exact le_trans (hk w hw') hc
      | false =>
        rw [List.filter_cons_of_neg (by simp [hpz]), if_neg (by simp)]
    · rw [if_neg hc]
      have ihr := ih hrest
      cases hpk : p k with
      | true =>
        rw [List.filter_cons_of_pos hpk, ihr]
        cases hpz : p z with
        | true =>
          rw [if_pos rfl, if_pos rfl, List.filter_cons_of_pos hpk]
          simp only [insertZ]
          rw [if_neg hc]
        | false =>
          rw [if_neg (by simp), if_neg (by simp), List.filter_cons_of_pos hpk]
      | false =>
        rw [List.filter_cons_of_neg (by simp [hpk]), ihr,
          List.filter_cons_of_neg (by simp [hpk])]

theorem sortZones_filter (p : ZoneDict → Bool) :
    ∀ l : List ZoneDict, sortZones (l.filter p) = (sortZones l).filter p := by
  intro l
  induction l with
  | nil => rfl
  | cons x xs ih =>
    cases hpx : p x with
    | true =>
      rw [List.filter_cons_of_pos hpx]
      simp only [sortZones]
      rw [ih, filter_insertZ (sorted_sortZones xs), if_pos hpx]
    | false =>
      rw [List.filter_cons_of_neg (by simp [hpx])]
      simp only [sortZones]
      rw [ih, filter_insertZ (sorted_sortZones xs), if_neg (by simp [hpx])]

theorem sorted_filter_eq_takeWhile {p : ZoneDict → Bool}
    (hmono : ∀ a b : ZoneDict, b.score ≤ a.score → p b = true → p a = true) :
    ∀ l : List ZoneDict, l.Pairwise scoreDesc → l.filter p = l.takeWhile p := by
  intro l
  induction l with
  | nil => intro _; rfl
  | cons x xs ih =>
    intro h
    rw [List.pairwise_cons] at h
    obtain ⟨hx, hxs⟩ := h
    cases hpx : p x with
    | true =>
      rw [List.filter_cons_of_pos hpx, List.takeWhile_cons_of_pos hpx, ih hxs]
    | false =>
      rw [List.filter_cons_of_neg (by simp [hpx]),
        List.takeWhile_cons_of_neg (by simp [hpx])]
      rw [List.filter_eq_nil_iff]
      intro w hw hcon
      exact absurd (hmono x w (hx w hw) hcon) (by simp [hpx])

theorem resolveAux_append (K l1 l2 : List ZoneDict) :
    resolveAux K (l1 ++ l2) = resolveAux (resolveAux K l1) l2 := by
  induction l1 generalizing K with
  | nil => rfl
  | cons z rest ih =>
    simp only [List.cons_append, resolveAux]
    by_cases ho : overlapsKept z K = true
    · rw [if_pos ho, if_pos ho]
      exact ih K
    · rw [if_neg ho, if_neg ho]
      exact ih (K ++ [z])

theorem length_le_resolveAux (K l : List ZoneDict) :
    K.length ≤ (resolveAux K l).length := by
  induction l generalizing K with
  | nil => exact Nat.le_refl _
  | cons z rest ih =>
    simp only [resolveAux]
    by_cases ho : overlapsKept z K = true
    · rw [if_pos ho]
      exact ih K
    · rw [if_neg ho]
      exact le_trans (by simp) (ih (K ++ [z]))

/-! ### Raising the score threshold is a pure filter -/

theorem update_MIN_SCORE (cfg : Config) (t : ℚ) :
    ({ cfg with MIN_SCORE := t } : Config).MIN_SCORE = t := rfl

theorem update_BASE_MAX (cfg : Config) (t : ℚ) :
    ({ cfg with MIN_SCORE := t } : Config).BASE_MAX_CANDLES = cfg.BASE_MAX_CANDLES := rfl

theorem update_RANGE_PCT (cfg : Config) (t : ℚ) :
    ({ cfg with MIN_SCORE := t } : Config).BASE_RANGE_ATR_PCT = cfg.BASE_RANGE_ATR_PCT := rfl

theorem update_IMPULSE (cfg : Config) (t : ℚ) :
    ({ cfg with MIN_SCORE := t } : Config).IMPULSE_ATR_MULT = cfg.IMPULSE_ATR_MULT := rfl

theorem update_PERIOD (cfg : Config) (t : ℚ) :
    ({ cfg with MIN_SCORE := t } : Config).ATR_PERIOD = cfg.ATR_PERIOD := rfl

theorem mkZone_minScore_update (df : List Bar) (cfg : Config) (t : ℚ) (ty : String)
    (i L : Nat) (a bh bl br im : ℚ) :
    mkZone df { cfg with MIN_SCORE := t } ty i L a bh bl br im
      = mkZone df cfg ty i L a bh bl br im := rfl

theorem gatedZone_filter {M t : ℚ} (h : M ≤ t) (c : Bool) (z : ZoneDict) :
    gatedZone t c z = (gatedZone M c z).filter fun w => !decide (w.score < t) := by
  unfold gatedZone
  cases c with
  | false => simp
  | true =>
    rw [if_pos rfl, if_pos rfl]
    by_cases h1 : z.score < M
    · rw [if_pos h1, if_pos (lt_of_lt_of_le h1 h)]
      rfl
    · rw [if_neg h1]
      by_cases h2 : z.score < t
      · rw [if_pos h2]
        simp [List.filter, h2]
      · rw [if_neg h2]
        simp [List.filter, h2]

theorem candidatesForBase_minScore {cfg : Config} {t : ℚ} (h : cfg.MIN_SCORE ≤ t)
    (df : List Bar) (i L : Nat) (a : ℚ) :
    candidatesForBase df { cfg with MIN_SCORE := t } i L a
      = (candidatesForBase df cfg i L a).filter fun w => !decide (w.score < t) := by
  simp only [candidatesForBase, update_MIN_SCORE, update_RANGE_PCT, update_IMPULSE,
    mkZone_minScore_update]
  split
  · rfl
  · rw [List.filter_append]
    rw [gatedZone_filter h, gatedZone_filter h]

theorem candidatesAt_minScore {cfg : Config} {t : ℚ} (h : cfg.MIN_SCORE ≤ t)
    (df : List Bar) (i : Nat) :
    candidatesAt df { cfg with MIN_SCORE := t } i
      = (candidatesAt df cfg i).filter fun w => !decide (w.score < t) := by
  simp only [candidatesAt, update_PERIOD, update_BASE_MAX]
  cases hatr : atr df cfg.ATR_PERIOD i with
  | none => rfl
  | some a =>
    dsimp only
    by_cases ha : a = 0
    · rw [if_pos ha, if_pos ha]
      rfl
    · rw [if_neg ha, if_neg ha, List.filter_flatMap]
      congr 1
      funext l
      exact candidatesForBase_minScore h df i (l + 1) a

theorem rawZones_minScore {cfg : Config} {t : ℚ} (h : cfg.MIN_SCORE ≤ t)
    (df : List Bar) :
    rawZones df { cfg with MIN_SCORE := t }
      = (rawZones df cfg).filter fun w => !decide (w.score < t) := by
  simp only [rawZones, update_BASE_MAX]
  rw [List.filter_flatMap]
  congr 1
  funext k
  exact candidatesAt_minScore h df _

/-- C5: with all other configuration equal, raising the minimum-score
threshold never increases the number of returned zones. -/
theorem find_zones_min_score_mono (df : List Bar) (cfg : Config) (t : ℚ)
    (h : cfg.MIN_SCORE ≤ t) :
    (find_zones df { cfg with MIN_SCORE := t }).length
      ≤ (find_zones df cfg).length := by
  unfold find_zones
  have hmono : ∀ a b : ZoneDict, b.score ≤ a.score →
      (!decide (b.score < t)) = true → (!decide (a.score < t)) = true := by
    intro a b hab hb
    simp only [Bool.not_eq_true', decide_eq_false_iff_not] at hb ⊢
    intro hcon
    exact hb (lt_of_le_of_lt hab hcon)
  rw [rawZones_minScore h, sortZones_filter,
    sorted_filter_eq_takeWhile hmono _ (sorted_sortZones _)]
  conv_rhs =>
    rw [← List.takeWhile_append_dropWhile (fun w => !decide (w.score < t))
      (sortZones (rawZones df cfg))]
  rw [resolveAux_append]
  exact length_le_resolveAux _ _

theorem find_zones_min_score_mono_witness :
    (find_zones exDf { exCfg with MIN_SCORE := 6 }).length
      ≤ (find_zones exDf exCfg).length :=
  find_zones_min_score_mono exDf exCfg 6 (by with_unfolding_all decide)

/-! ### Behaviour on empty and short series -/

/-- C2: the volatility pass faults on the empty series (the unconditional
`tr[0]` assignment reads index 0), is total on every nonempty series, and
`find_zones` returns the empty list on every series too short for one full
generator pass (`length ≤ 2·BASE_MAX_CANDLES + 1`, so the outer loop range
is empty). -/
theorem compute_atr_empty_series_fault :
    computeAtrExc ([] : List Bar) 14 = Except.error "IndexError" ∧
    (∀ (b : Bar) (df : List Bar), ∃ l, computeAtrExc (b :: df) 14 = Except.ok l) ∧
    (∀ (df : List Bar) (cfg : Config),
      df.length ≤ 2 * cfg.BASE_MAX_CANDLES + 1 → find_zones df cfg = []) := by
  refine ⟨rfl, fun b df => ⟨_, rfl⟩, ?_⟩
  intro df cfg hlen
  unfold find_zones rawZones
  have h0 : df.length - cfg.BASE_MAX_CANDLES - 1 - cfg.BASE_MAX_CANDLES = 0 := by omega
  rw [h0]
  rfl

theorem compute_atr_empty_series_fault_witness :
    find_zones [⟨0, 0, 10, 9, 9, 0⟩] exCfg = [] :=
  compute_atr_empty_series_fault.2.2 [⟨0, 0, 10, 9, 9, 0⟩] exCfg
    (by with_unfolding_all decide)

/-! ### The volatility formulas -/

theorem trSum_eq_sum (df : List Bar) (k : Nat) :
    trSum df k = ∑ j ∈ Finset.range k, trueRange df j := by
  induction k with
  | zero => simp [trSum]
  | succ k ih =>
    simp only [trSum]
    rw [Finset.sum_range_succ, ih]

/-- C6: the true-range and Wilder-smoothing formulas of the volatility pass:
`tr[0] = high[0] − low[0]`; for `i ≥ 1` the three-way max; the first `p − 1`
entries undefined (as is everything when the series is shorter than `p`);
entry `p − 1` seeded with the arithmetic mean of the first `p` true ranges;
and each later defined entry obtained from its predecessor by
`value[i] = value[i−1]·(1 − 1/p) + trueRange[i]·(1/p)`. -/
theorem compute_atr_formulas (df : List Bar) (p i : Nat) (hp : 1 ≤ p) :
    trueRange df 0 = hiD df 0 - loD df 0 ∧
    (1 ≤ i → trueRange df i =
      max (hiD df i - loD df i)
        (max |hiD df i - clD df (i - 1)| |loD df i - clD df (i - 1)|)) ∧
    (i < p - 1 → atr df p i = none) ∧
    (df.length < p → atr df p i = none) ∧
    (p ≤ df.length → atr df p (p - 1)
      = some ((∑ j ∈ Finset.range p, trueRange df j) / p)) ∧
    (∀ v : ℚ, p ≤ i → i < df.length → atr df p (i - 1) = some v →
      atr df p i = some (v * (1 - 1 / (p : ℚ)) + trueRange df i * (1 / (p : ℚ)))) := by
  refine ⟨rfl, ?_, ?_, ?_, ?_, ?_⟩
  · intro hi
    obtain ⟨j, rfl⟩ : ∃ j, i = j + 1 := ⟨i - 1, by omega⟩
    simp only [trueRange, Nat.add_sub_cancel]
  · intro hlt
    unfold atr
    rw [if_neg]
    rintro ⟨_, h2, _⟩
    omega
  · intro hlen
    unfold atr
    rw [if_neg]
    rintro ⟨h1, _, _⟩
    omega
  · intro hlen
    unfold atr
    rw [if_pos ⟨hlen, le_refl _, by omega⟩]
    rw [← trSum_eq_sum]
    congr 1
    obtain ⟨q, rfl⟩ : ∃ q, p = q + 1 := ⟨p - 1, by omega⟩
    simp only [Nat.add_sub_cancel]
    cases q with
    | zero => rfl
    | succ r =>
      simp only [atrVal]
      rw [if_pos (by omega)]
  · intro v hpi hin hv
    unfold atr at hv ⊢
    rw [if_pos ⟨by omega, by omega, hin⟩]
    split at hv
    · injection hv with hv'
      congr 1
      obtain ⟨j, rfl⟩ : ∃ j, i = j + 1 := ⟨i - 1, by omega⟩
      rw [Nat.add_sub_cancel] at hv'
      simp only [atrVal]
      rw [if_neg (by omega), hv']
    · exact absurd hv (by simp)

theorem compute_atr_formulas_witness :
    atr wdf6 2 1 = some ((∑ j ∈ Finset.range 2, trueRange wdf6 j) / ((2 : ℕ) : ℚ)) :=
  (compute_atr_formulas wdf6 2 1 (by norm_num)).2.2.2.2.1 (by with_unfolding_all decide)

/-! ### The scorer -/

/-- C7: the six criteria of the scorer at positive volatility `av`: impulse
on the ratio `m/av` with thresholds 3.0/1.8, tightness on `br/av` with
thresholds 0.20/0.40, binary freshness/gap/structure criteria, clean base at
length ≤ 2; the total is the unweighted sum of the six values and always
lies in `[0, 6]`. -/
theorem score_zone_criteria (m av br : ℚ) (fr fv bo : Bool) (L : Nat)
    (hav : 0 < av) :
    (score_zone (m / av) br av fr fv bo L).2.impulse
        = (if m / av > 3 then 1 else if m / av > (1.8 : ℚ) then 0.5 else 0) ∧
    (score_zone (m / av) br av fr fv bo L).2.tightness
        = (if br / av < (0.20 : ℚ) then 1 else if br / av < (0.40 : ℚ) then 0.5 else 0) ∧
    (score_zone (m / av) br av fr fv bo L).2.freshness = (if fr then 1 else 0) ∧
    (score_zone (m / av) br av fr fv bo L).2.fvg = (if fv then 1 else 0) ∧
    (score_zone (m / av) br av fr fv bo L).2.bos = (if bo then 1 else 0) ∧
    (score_zone (m / av) br av fr fv bo L).2.clean_base = (if L ≤ 2 then 1 else 0) ∧
    (score_zone (m / av) br av fr fv bo L).1
        = (score_zone (m / av) br av fr fv bo L).2.impulse
          + (score_zone (m / av) br av fr fv bo L).2.tightness
          + (score_zone (m / av) br av fr fv bo L).2.freshness
          + (score_zone (m / av) br av fr fv bo L).2.fvg
          + (score_zone (m / av) br av fr fv bo L).2.bos
          + (score_zone (m / av) br av fr fv bo L).2.clean_base ∧
    0 ≤ (score_zone (m / av) br av fr fv bo L).1 ∧
    (score_zone (m / av) br av fr fv bo L).1 ≤ 6 := by
  have hpct : (if av > 0 then br / av else 1) = br / av := if_pos hav
  refine ⟨?_, ?_, ?_, ?_, ?_, ?_, ?_, ?_, ?_⟩ <;>
    simp only [score_zone, hpct] <;> split_ifs <;> norm_num

theorem score_zone_criteria_witness :
    0 ≤ (score_zone ((7 : ℚ) / 2) 1 2 true true true 1).1 ∧
    (score_zone ((7 : ℚ) / 2) 1 2 true true true 1).1 ≤ 6 :=
  ⟨(score_zone_criteria 7 2 1 true true true 1 (by norm_num)).2.2.2.2.2.2.2.1,
   (score_zone_criteria 7 2 1 true true true 1 (by norm_num)).2.2.2.2.2.2.2.2⟩

/-! ### Freshness -/

/-- C8: a candidate is fresh exactly when no bar strictly after the base end
has its low/high range intersecting the zone bounds, and the flag is a
function of the bars strictly after the base end only. -/
theorem is_fresh_characterization (df : List Bar) (e : Nat) (zh zl : ℚ) :
    (isFresh df e zh zl = true ↔
      ∀ j, e < j → j < df.length → ¬(loD df j < zh ∧ hiD df j > zl)) ∧
    (∀ df2 : List Bar, df.drop (e + 1) = df2.drop (e + 1) →
      isFresh df e zh zl = isFresh df2 e zh zl) := by
  constructor
  · unfold isFresh
    rw [List.all_eq_true]
    constructor
    · intro h j hj1 hj2
      have hb : df.getD j default ∈ df.drop (e + 1) := by
        rw [List.mem_iff_getElem?]
        refine ⟨j - (e + 1), ?_⟩
        rw [List.getElem?_drop]
        have hidx : e + 1 + (j - (e + 1)) = j := by omega
        rw [hidx, List.getElem?_eq_getElem hj2, List.getD_eq_getElem df default hj2]
      have hpred := h _ hb
      rw [Bool.not_eq_true', decide_eq_false_iff_not] at hpred
      exact fun hc => hpred ⟨hc.1, hc.2⟩
    · intro h b hb
      rw [Bool.not_eq_true', decide_eq_false_iff_not]
      rw [List.mem_iff_getElem] at hb
      obtain ⟨k, hk, rfl⟩ := hb
      have hklen : k < df.length - (e + 1) := by
        rw [List.length_drop] at hk
        exact hk
      have h2 : e < e + 1 + k := by omega
      have h3 : e + 1 + k < df.length := by omega
      have hj := h (e + 1 + k) h2 h3
      intro hcon
      apply hj
      have hget : (df.drop (e + 1))[k] = df.getD (e + 1 + k) default := by
        rw [List.getElem_drop, List.getD_eq_getElem df default h3]
      rw [hget] at hcon
      exact ⟨hcon.1, hcon.2⟩
  · intro df2 hdrop
    unfold isFresh
    rw [hdrop]

theorem is_fresh_characterization_witness :
    isFresh wdf8a 0 10 2 = isFresh wdf8b 0 10 2 :=
  (is_fresh_characterization wdf8a 0 10 2).2 wdf8b (by with_unfolding_all rfl)

end SMC
